import Mathlib

/-!
Verification of the Minesweeper AI knowledge engine
(`src/minesweeper/minesweeper.py`).

The embedding models the `Sentence` class and the `MinesweeperAI` class.
Cells are pairs of integers; a `Sentence` carries a finite set of cells and
an integer count; the AI state carries the board dimensions, the three
monotone cell sets and the list of sentences.

Python iterates over (unordered) `set` objects in loops whose bodies are
order-independent; such loops are modelled with `Multiset.foldr`, which
requires (and we prove, as `LeftCommutative` instances) that the loop body
commutes, so the model does not depend on any iteration order, exactly as
the Python result does not.

The query `make_random_move` calls `random.choice` on a nonempty list; it is
modelled with an extra index parameter `k` selecting an arbitrary element of
that list, covering every possible draw.
-/

/-- A board cell `(row, column)`, as in the Python tuples. -/
abbrev Cell := ℤ × ℤ

/-- The `Sentence` class: a set of cells together with a count of how many
of them are mines.  Equality is structural, as in `Sentence.__eq__`. -/
structure Sentence where
  cells : Finset Cell
  count : ℤ
  deriving DecidableEq

namespace Sentence

/-- `Sentence.known_mines`: the whole cell set when `count == len(cells)`,
else the empty set. -/
def known_mines (s : Sentence) : Finset Cell :=
  if s.count = (s.cells.card : ℤ) then s.cells else ∅

/-- `Sentence.known_safes`: the whole cell set when `count == 0`,
else the empty set. -/
def known_safes (s : Sentence) : Finset Cell :=
  if s.count = 0 then s.cells else ∅

/-- `Sentence.mark_mine`: if the cell is in the sentence, remove it and
decrement the count; otherwise do nothing. -/
def mark_mine (c : Cell) (s : Sentence) : Sentence :=
  if c ∈ s.cells then ⟨s.cells.erase c, s.count - 1⟩ else s

/-- `Sentence.mark_safe`: if the cell is in the sentence, remove it,
leaving the count unchanged; otherwise do nothing. -/
def mark_safe (c : Cell) (s : Sentence) : Sentence :=
  if c ∈ s.cells then ⟨s.cells.erase c, s.count⟩ else s

/-- The documented sentence invariant `0 ≤ count ≤ |cells|`. -/
def inv (s : Sentence) : Prop :=
  0 ≤ s.count ∧ s.count ≤ (s.cells.card : ℤ)

instance (s : Sentence) : Decidable s.inv := by
  unfold inv; infer_instance

end Sentence

/-- The `MinesweeperAI` state: board dimensions, the moves made, the two
certainty sets and the knowledge base. -/
structure MinesweeperAI where
  height : ℤ
  width : ℤ
  moves_made : Finset Cell
  mines : Finset Cell
  safes : Finset Cell
  knowledge : List Sentence
  deriving DecidableEq

namespace MinesweeperAI

/-- `MinesweeperAI.__init__`: empty sets and empty knowledge base. -/
def init (height width : ℤ) : MinesweeperAI :=
  ⟨height, width, ∅, ∅, ∅, []⟩

/-- `MinesweeperAI.mark_mine`: add the cell to `mines` and call
`Sentence.mark_mine` on every sentence in `knowledge`. -/
def mark_mine (c : Cell) (s : MinesweeperAI) : MinesweeperAI :=
  { s with mines := insert c s.mines,
           knowledge := s.knowledge.map (Sentence.mark_mine c) }

/-- `MinesweeperAI.mark_safe`: add the cell to `safes` and call
`Sentence.mark_safe` on every sentence in `knowledge`. -/
def mark_safe (c : Cell) (s : MinesweeperAI) : MinesweeperAI :=
  { s with safes := insert c s.safes,
           knowledge := s.knowledge.map (Sentence.mark_safe c) }

instance : LeftCommutative MinesweeperAI.mark_mine := by
  constructor
  intro a b s
  have hsent : ∀ t : Sentence,
      Sentence.mark_mine a (Sentence.mark_mine b t)
        = Sentence.mark_mine b (Sentence.mark_mine a t) := by
    intro t
    by_cases hab : a = b
    · subst hab; rfl
    · unfold Sentence.mark_mine
      by_cases hb : b ∈ t.cells
      · by_cases ha : a ∈ t.cells
        · have ha' : a ∈ t.cells.erase b := Finset.mem_erase.2 ⟨hab, ha⟩
          have hb' : b ∈ t.cells.erase a :=
            Finset.mem_erase.2 ⟨fun h => hab h.symm, hb⟩
          simp [ha, hb, ha', hb', Finset.erase_right_comm]
        · have ha' : a ∉ t.cells.erase b := fun h => ha (Finset.mem_erase.1 h).2
          simp [ha, hb, ha']
      · by_cases ha : a ∈ t.cells
        · have hb' : b ∉ t.cells.erase a := fun h => hb (Finset.mem_erase.1 h).2
          simp [ha, hb, hb']
        · simp [ha, hb]
  unfold MinesweeperAI.mark_mine
  simp only [List.map_map]
  congr 1
  · exact Finset.Insert.comm a b s.mines
  · exact List.map_congr_left fun t _ => hsent t

instance : LeftCommutative MinesweeperAI.mark_safe := by
  constructor
  intro a b s
  have hsent : ∀ t : Sentence,
      Sentence.mark_safe a (Sentence.mark_safe b t)
        = Sentence.mark_safe b (Sentence.mark_safe a t) := by
    intro t
    by_cases hab : a = b
    · subst hab; rfl
    · unfold Sentence.mark_safe
      by_cases hb : b ∈ t.cells
      · by_cases ha : a ∈ t.cells
        · have ha' : a ∈ t.cells.erase b := Finset.mem_erase.2 ⟨hab, ha⟩
          have hb' : b ∈ t.cells.erase a :=
            Finset.mem_erase.2 ⟨fun h => hab h.symm, hb⟩
          simp [ha, hb, ha', hb', Finset.erase_right_comm]
        · have ha' : a ∉ t.cells.erase b := fun h => ha (Finset.mem_erase.1 h).2
          simp [ha, hb, ha']
      · by_cases ha : a ∈ t.cells
        · have hb' : b ∉ t.cells.erase a := fun h => hb (Finset.mem_erase.1 h).2
          simp [ha, hb, hb']
        · simp [ha, hb]
  unfold MinesweeperAI.mark_safe
  simp only [List.map_map]
  congr 1
  · exact Finset.Insert.comm a b s.safes
  · exact List.map_congr_left fun t _ => hsent t

/-- The loop `for mine in known_mines.copy(): self.mark_mine(mine)`:
mark every cell of a set as a mine (order-independent by the
`LeftCommutative` instance). -/
def mark_mine_all (M : Finset Cell) (s : MinesweeperAI) : MinesweeperAI :=
  Multiset.foldr MinesweeperAI.mark_mine s M.val

/-- The loop `for safe in known_safes.copy(): self.mark_safe(safe)`. -/
def mark_safe_all (M : Finset Cell) (s : MinesweeperAI) : MinesweeperAI :=
  Multiset.foldr MinesweeperAI.mark_safe s M.val

/-- The body of the inner loop of the final resolution pass of
`add_knowledge` (step 6): for a derived sentence `t` and one of its cells
`n`, mark `n` safe when `t.count == 0`, mark it a mine when
`t.count == len(t.cells)`, guarded by `n != cell`, `n not in mines`,
`n not in safes`. -/
def resolve_cell (cell : Cell) (t : Sentence) (n : Cell) (st : MinesweeperAI) :
    MinesweeperAI :=
  if n ≠ cell ∧ n ∉ st.mines ∧ n ∉ st.safes then
    if t.count = 0 then st.mark_safe n
    else if t.count = (t.cells.card : ℤ) then st.mark_mine n
    else st
  else st

instance (cell : Cell) (t : Sentence) : LeftCommutative (resolve_cell cell t) := by
  constructor
  intro a b st
  by_cases hab : a = b
  · subst hab; rfl
  by_cases h0 : t.count = 0
  · have rc_eq : ∀ (x : Cell) (u : MinesweeperAI),
        resolve_cell cell t x u =
          if x ≠ cell ∧ x ∉ u.mines ∧ x ∉ u.safes then u.mark_safe x else u := by
      intro x u; simp [resolve_cell, h0]
    have transfer : ∀ x y : Cell, x ≠ y →
        ((x ≠ cell ∧ x ∉ (st.mark_safe y).mines ∧ x ∉ (st.mark_safe y).safes) ↔
          (x ≠ cell ∧ x ∉ st.mines ∧ x ∉ st.safes)) := by
      intro x y hxy
      simp [MinesweeperAI.mark_safe, hxy]
    by_cases gb : b ≠ cell ∧ b ∉ st.mines ∧ b ∉ st.safes <;>
      by_cases ga : a ≠ cell ∧ a ∉ st.mines ∧ a ∉ st.safes <;>
      simp only [rc_eq]
    · rw [if_pos gb, if_pos ga, if_pos ((transfer a b hab).2 ga),
        if_pos ((transfer b a (Ne.symm hab)).2 gb)]
      exact LeftCommutative.left_comm a b st
    · rw [if_pos gb, if_neg ga, if_neg (fun h => ga ((transfer a b hab).1 h)),
        if_pos gb]
    · rw [if_neg gb, if_pos ga,
        if_neg (fun h => gb ((transfer b a (Ne.symm hab)).1 h))]
    · rw [if_neg gb, if_neg ga, if_neg gb]
  by_cases hc : t.count = (t.cells.card : ℤ)
  · have hne : ¬ t.cells = ∅ := by
      intro h; apply h0; rw [hc, h]; simp
    have rc_eq : ∀ (x : Cell) (u : MinesweeperAI),
        resolve_cell cell t x u =
          if x ≠ cell ∧ x ∉ u.mines ∧ x ∉ u.safes then u.mark_mine x else u := by
      intro x u; simp [resolve_cell, h0, hc, hne]
    have transfer : ∀ x y : Cell, x ≠ y →
        ((x ≠ cell ∧ x ∉ (st.mark_mine y).mines ∧ x ∉ (st.mark_mine y).safes) ↔
          (x ≠ cell ∧ x ∉ st.mines ∧ x ∉ st.safes)) := by
      intro x y hxy
      simp [MinesweeperAI.mark_mine, hxy]
    by_cases gb : b ≠ cell ∧ b ∉ st.mines ∧ b ∉ st.safes <;>
      by_cases ga : a ≠ cell ∧ a ∉ st.mines ∧ a ∉ st.safes <;>
      simp only [rc_eq]
    · rw [if_pos gb, if_pos ga, if_pos ((transfer a b hab).2 ga),
        if_pos ((transfer b a (Ne.symm hab)).2 gb)]
      exact LeftCommutative.left_comm a b st
    · rw [if_pos gb, if_neg ga, if_neg (fun h => ga ((transfer a b hab).1 h)),
        if_pos gb]
    · rw [if_neg gb, if_pos ga,
        if_neg (fun h => gb ((transfer b a (Ne.symm hab)).1 h))]
    · rw [if_neg gb, if_neg ga, if_neg gb]
  · simp [resolve_cell, h0, hc]

end MinesweeperAI

namespace Sentence

/-- The sentence derived by subset resolution from `s1 ⊆ s2`:
`Sentence(s2.cells - s1.cells, s2.count - s1.count)`. -/
def infer (s1 s2 : Sentence) : Sentence :=
  ⟨s2.cells \ s1.cells, s2.count - s1.count⟩

end Sentence

namespace MinesweeperAI

/-- The candidate neighbor set of `add_knowledge`: the cells in the ranges
`range(max(0, i - 1), min(height, i + 2))` × `range(max(0, j - 1),
min(width, j + 2))` that differ from `cell` and are not in `safes`. -/
def neighbors_of (s : MinesweeperAI) (cell : Cell) : Finset Cell :=
  (Finset.Ico (max 0 (cell.1 - 1)) (min s.height (cell.1 + 2)) ×ˢ
      Finset.Ico (max 0 (cell.2 - 1)) (min s.width (cell.2 + 2))).filter
    fun n => n ≠ cell ∧ n ∉ s.safes

/-- Steps 1–3 of `add_knowledge`: record the move, mark the cell safe, and
append the new observation sentence built from the neighbor set. -/
def observe (cell : Cell) (count : ℤ) (s : MinesweeperAI) : MinesweeperAI :=
  let s1 := { s with moves_made := insert cell s.moves_made }
  let s2 := s1.mark_safe cell
  { s2 with knowledge := s2.knowledge ++ [⟨neighbors_of s2 cell, count⟩] }

/-- Step 4 of `add_knowledge`: a single left-to-right sweep over the
knowledge list; for the current value of each sentence, mark all its
`known_mines` and then all its `known_safes`.  The list is indexed by
position because earlier marks shrink the sentences seen later. -/
def inference_sweep (s : MinesweeperAI) : MinesweeperAI :=
  (List.range s.knowledge.length).foldl
    (fun st idx =>
      match st.knowledge.get? idx with
      | none => st
      | some t => mark_safe_all t.known_safes (mark_mine_all t.known_mines st))
    s

/-- Step 5 of `add_knowledge`: the nested loop over ordered pairs of
sentences deriving `Sentence.infer s1 s2` for structurally distinct
`s1, s2` with `s1.cells ⊆ s2.cells`, deduplicated against the knowledge
list and the batch built so far. -/
def derive_step (k : List Sentence) (s1 : Sentence) (acc : List Sentence)
    (s2 : Sentence) : List Sentence :=
  if s1 ≠ s2 ∧ s1.cells ⊆ s2.cells then
    if Sentence.infer s1 s2 ∉ k ∧ Sentence.infer s1 s2 ∉ acc then
      acc ++ [Sentence.infer s1 s2]
    else acc
  else acc

/-- The full nested loop of step 5, accumulating the batch from `[]`. -/
def subset_derive (k : List Sentence) : List Sentence :=
  k.foldl (fun acc s1 => k.foldl (derive_step k s1) acc) []

/-- Step 6 of `add_knowledge`: for every newly derived sentence and every
cell in it, resolve it through `resolve_cell`.  The derived sentences are
not yet part of the knowledge list, so the marks do not mutate them. -/
def resolve_derived (cell : Cell) (nk : List Sentence) (s : MinesweeperAI) :
    MinesweeperAI :=
  nk.foldl (fun st t => Multiset.foldr (resolve_cell cell t) st t.cells.val) s

/-- `MinesweeperAI.add_knowledge`: steps 1–3 (`observe`), the direct
resolution sweep, subset derivation, resolution of the derived batch, and
finally extending the knowledge list with the batch. -/
def add_knowledge (cell : Cell) (count : ℤ) (s : MinesweeperAI) : MinesweeperAI :=
  let s4 := inference_sweep (observe cell count s)
  let nk := subset_derive s4.knowledge
  let s6 := resolve_derived cell nk s4
  { s6 with knowledge := s6.knowledge ++ nk }

/-- `range(n)` over integers, as a list. -/
def int_range (n : ℤ) : List ℤ :=
  (List.range n.toNat).map fun k => (k : ℤ)

/-- The board cells in the row-major order of the nested
`for i in range(height): for j in range(width)` loops. -/
def board_cells (s : MinesweeperAI) : List Cell :=
  (int_range s.height).flatMap fun i => (int_range s.width).map fun j => (i, j)

/-- `MinesweeperAI.make_safe_move`: the first board cell, in row-major
order, that is not in `moves_made` and is in `safes`. -/
def make_safe_move (s : MinesweeperAI) : Option Cell :=
  (board_cells s).find? fun c => decide (c ∉ s.moves_made ∧ c ∈ s.safes)

/-- The `possible_moves` list of `make_random_move`: board cells, in
row-major order, not in `moves_made` and not in `mines`. -/
def possible_moves (s : MinesweeperAI) : List Cell :=
  (board_cells s).filter fun c => decide (c ∉ s.moves_made ∧ c ∉ s.mines)

/-- `MinesweeperAI.make_random_move`: `None` when `possible_moves` is
empty, otherwise an arbitrary element of it; the index `k` models the
draw of `random.choice`. -/
def make_random_move (s : MinesweeperAI) (k : ℕ) : Option Cell :=
  let ps := possible_moves s
  if h : ps.length = 0 then none
  else some (ps.get ⟨k % ps.length, Nat.mod_lt k (Nat.pos_of_ne_zero h)⟩)

/-- Engine states reachable from a fresh `MinesweeperAI` through the
public mutating operations. -/
inductive Reachable : MinesweeperAI → Prop
  | init (height width : ℤ) : Reachable (init height width)
  | mark_mine (c : Cell) {s : MinesweeperAI} :
      Reachable s → Reachable (s.mark_mine c)
  | mark_safe (c : Cell) {s : MinesweeperAI} :
      Reachable s → Reachable (s.mark_safe c)
  | add_knowledge (c : Cell) (n : ℤ) {s : MinesweeperAI} :
      Reachable s → Reachable (add_knowledge c n s)

/-- The evolution order between engine states: the three cell sets only
grow, the knowledge list does not get shorter, and vacuous sentences
(empty cell set) already present are retained. -/
def grows (s s' : MinesweeperAI) : Prop :=
  s.moves_made ⊆ s'.moves_made ∧ s.mines ⊆ s'.mines ∧ s.safes ⊆ s'.safes ∧
    s.knowledge.length ≤ s'.knowledge.length ∧
    ∀ m : ℤ, (⟨∅, m⟩ : Sentence) ∈ s.knowledge →
      (⟨∅, m⟩ : Sentence) ∈ s'.knowledge

end MinesweeperAI

/-- A knowledge base holding the constraints `{A,B} = 1` and
`{A,B,C} = 2` with `A = (0,0)`, `B = (0,1)`, `C = (0,2)`, on a 1×5 board
with no other recorded facts. -/
def subset_demo : MinesweeperAI :=
  ⟨1, 5, ∅, ∅, ∅,
    [⟨{((0:ℤ), (0:ℤ)), ((0:ℤ), (1:ℤ))}, 1⟩,
      ⟨{((0:ℤ), (0:ℤ)), ((0:ℤ), (1:ℤ)), ((0:ℤ), (2:ℤ))}, 2⟩]⟩

/-! ## Helper lemmas -/

theorem Sentence.mark_mine_idem (c : Cell) (t : Sentence) :
    Sentence.mark_mine c (Sentence.mark_mine c t) = Sentence.mark_mine c t := by
  unfold Sentence.mark_mine
  by_cases h : c ∈ t.cells
  · simp [h, Finset.not_mem_erase]
  · simp [h]

theorem Sentence.mark_safe_idem (c : Cell) (t : Sentence) :
    Sentence.mark_safe c (Sentence.mark_safe c t) = Sentence.mark_safe c t := by
  unfold Sentence.mark_safe
  by_cases h : c ∈ t.cells
  · simp [h, Finset.not_mem_erase]
  · simp [h]

/-! ## C5: the two extraction queries -/

/-- C5.  `known_mines` returns the cell set exactly when the count equals
the number of cells and the empty set otherwise; `known_safes` returns the
cell set exactly when the count is zero and the empty set otherwise.  Both
are pure functions of the sentence (the embedding types them
`Sentence → Finset Cell`, so no mutation is possible). -/
theorem Sentence.known_mines_known_safes_spec (s : Sentence) (c : Cell) :
    (c ∈ s.known_mines ↔ s.count = (s.cells.card : ℤ) ∧ c ∈ s.cells) ∧
    (c ∈ s.known_safes ↔ s.count = 0 ∧ c ∈ s.cells) := by
  constructor
  · unfold Sentence.known_mines
    by_cases h : s.count = (s.cells.card : ℤ) <;> simp [h]
  · unfold Sentence.known_safes
    by_cases h : s.count = 0 <;> simp [h]

/-! ## C9: idempotence of the marking operations -/

/-- C9.  Marking the same cell as a mine (resp. safe) twice yields exactly
the same engine state — all of `mines`, `safes`, `moves_made` and every
sentence of `knowledge` — as marking it once. -/
theorem MinesweeperAI.mark_idempotent (s : MinesweeperAI) (c : Cell) :
    (s.mark_mine c).mark_mine c = s.mark_mine c ∧
    (s.mark_safe c).mark_safe c = s.mark_safe c := by
  constructor
  · unfold MinesweeperAI.mark_mine
    simp only [List.map_map]
    congr 1
    · exact Finset.insert_idem c s.mines
    · exact List.map_congr_left fun t _ => Sentence.mark_mine_idem c t
  · unfold MinesweeperAI.mark_safe
    simp only [List.map_map]
    congr 1
    · exact Finset.insert_idem c s.safes
    · exact List.map_congr_left fun t _ => Sentence.mark_safe_idem c t

/-! ## C3: the sentence count invariant (refuted as stated, then amended) -/

/-- C3 counterexample.  The constructor performs no validation: the
reachable engine state `add_knowledge((0,0), 5)` on a fresh 1×1 board
holds the sentence `∅ = 5`, which violates `0 ≤ count ≤ |cells|`
immediately after construction. -/
theorem Sentence.inv_violated_in_reachable_state :
    MinesweeperAI.Reachable
        (MinesweeperAI.add_knowledge ((0:ℤ), (0:ℤ)) 5 (MinesweeperAI.init 1 1)) ∧
    (⟨∅, 5⟩ : Sentence) ∈
        (MinesweeperAI.add_knowledge ((0:ℤ), (0:ℤ)) 5 (MinesweeperAI.init 1 1)).knowledge ∧
    ¬ (⟨∅, 5⟩ : Sentence).inv :=
  ⟨MinesweeperAI.Reachable.add_knowledge _ _ (MinesweeperAI.Reachable.init 1 1),
    by decide, by decide⟩

/-- C3 amended.  `0 ≤ count ≤ |cells|` holds immediately after
construction exactly when the constructor arguments already satisfy it
(no validation is performed); given the invariant, `mark_mine` preserves
the upper bound `count ≤ |cells|` and `mark_safe` preserves the lower
bound `0 ≤ count`, but neither call preserves the full invariant in
general. -/
theorem Sentence.inv_construction_and_bound_preservation
    (cs : Finset Cell) (m : ℤ) (t : Sentence) (c : Cell) :
    ((⟨cs, m⟩ : Sentence).inv ↔ 0 ≤ m ∧ m ≤ (cs.card : ℤ)) ∧
    (t.inv → (Sentence.mark_mine c t).count ≤
      ((Sentence.mark_mine c t).cells.card : ℤ)) ∧
    (t.inv → 0 ≤ (Sentence.mark_safe c t).count) := by
  refine ⟨Iff.rfl, ?_, ?_⟩
  · intro h
    unfold Sentence.mark_mine
    by_cases hc : c ∈ t.cells
    · have hcard : (t.cells.erase c).card = t.cells.card - 1 :=
        Finset.card_erase_of_mem hc
      have hpos : 1 ≤ t.cells.card := Finset.card_pos.2 ⟨c, hc⟩
      have h2 := h.2
      simp only [hc, if_pos, hcard]
      push_cast [hcard, Nat.cast_sub hpos]
      omega
    · simp only [hc, if_neg, not_false_iff]
      exact h.2
  · intro h
    unfold Sentence.mark_safe
    by_cases hc : c ∈ t.cells <;> simp [hc, h.1]

/-- C3 witness: the amended preservation facts applied to the concrete
sentence `{(0,0)} = 1`. -/
theorem Sentence.inv_bound_preservation_witness :
    ((Sentence.mark_mine ((0:ℤ), (0:ℤ)) ⟨{((0:ℤ), (0:ℤ))}, 1⟩).count ≤
      ((Sentence.mark_mine ((0:ℤ), (0:ℤ)) ⟨{((0:ℤ), (0:ℤ))}, 1⟩).cells.card : ℤ)) ∧
    0 ≤ (Sentence.mark_safe ((0:ℤ), (0:ℤ)) ⟨{((0:ℤ), (0:ℤ))}, 1⟩).count :=
  ⟨(Sentence.inv_construction_and_bound_preservation ∅ 0
      ⟨{((0:ℤ), (0:ℤ))}, 1⟩ ((0:ℤ), (0:ℤ))).2.1 (by decide),
    (Sentence.inv_construction_and_bound_preservation ∅ 0
      ⟨{((0:ℤ), (0:ℤ))}, 1⟩ ((0:ℤ), (0:ℤ))).2.2 (by decide)⟩

/-! ## C2: disjointness of `mines` and `safes` (refuted as stated, then
amended) -/

/-- C2 counterexample.  The engine does not enforce disjointness: from a
fresh 8×8 engine, `mark_mine((0,0))` followed by `mark_safe((0,0))` — a
sequence of public operations — reaches a state with `(0,0)` in both
`mines` and `safes`. -/
theorem MinesweeperAI.mines_safes_conflict_reachable :
    MinesweeperAI.Reachable
        (((MinesweeperAI.init 8 8).mark_mine ((0:ℤ), (0:ℤ))).mark_safe ((0:ℤ), (0:ℤ))) ∧
    ((0:ℤ), (0:ℤ)) ∈
        (((MinesweeperAI.init 8 8).mark_mine ((0:ℤ), (0:ℤ))).mark_safe ((0:ℤ), (0:ℤ))).mines ∧
    ((0:ℤ), (0:ℤ)) ∈
        (((MinesweeperAI.init 8 8).mark_mine ((0:ℤ), (0:ℤ))).mark_safe ((0:ℤ), (0:ℤ))).safes ∧
    (((MinesweeperAI.init 8 8).mark_mine ((0:ℤ), (0:ℤ))).mark_safe ((0:ℤ), (0:ℤ))).mines ∩
        (((MinesweeperAI.init 8 8).mark_mine ((0:ℤ), (0:ℤ))).mark_safe ((0:ℤ), (0:ℤ))).safes ≠ ∅ :=
  ⟨MinesweeperAI.Reachable.mark_safe _
      (MinesweeperAI.Reachable.mark_mine _ (MinesweeperAI.Reachable.init 8 8)),
    by decide, by decide, by decide⟩

/-- C2 amended.  Disjointness of `mines` and `safes` is preserved by
`mark_mine c` exactly when `c` is not already in `safes`, and by
`mark_safe c` exactly when `c` is not already in `mines`; it is not an
unconditional invariant of the public operations. -/
theorem MinesweeperAI.disjoint_mark_preservation (s : MinesweeperAI) (c : Cell)
    (h : Disjoint s.mines s.safes) :
    (Disjoint (s.mark_mine c).mines (s.mark_mine c).safes ↔ c ∉ s.safes) ∧
    (Disjoint (s.mark_safe c).mines (s.mark_safe c).safes ↔ c ∉ s.mines) := by
  constructor
  · simp [MinesweeperAI.mark_mine, Finset.disjoint_insert_left, h]
  · simp [MinesweeperAI.mark_safe, Finset.disjoint_insert_right, h]

/-- C2 witness: the amended preservation equivalences applied to a fresh
2×2 engine, whose certainty sets are empty and disjoint. -/
theorem MinesweeperAI.disjoint_mark_preservation_witness :
    (Disjoint ((MinesweeperAI.init 2 2).mark_mine ((0:ℤ), (0:ℤ))).mines
        ((MinesweeperAI.init 2 2).mark_mine ((0:ℤ), (0:ℤ))).safes ↔
      ((0:ℤ), (0:ℤ)) ∉ (MinesweeperAI.init 2 2).safes) ∧
    (Disjoint ((MinesweeperAI.init 2 2).mark_safe ((0:ℤ), (0:ℤ))).mines
        ((MinesweeperAI.init 2 2).mark_safe ((0:ℤ), (0:ℤ))).safes ↔
      ((0:ℤ), (0:ℤ)) ∉ (MinesweeperAI.init 2 2).mines) :=
  MinesweeperAI.disjoint_mark_preservation (MinesweeperAI.init 2 2) ((0:ℤ), (0:ℤ))
    (Finset.disjoint_empty_left _)

/-! ## Growth lemmas shared by C8 and C10 -/

theorem MinesweeperAI.grows_refl (s : MinesweeperAI) : MinesweeperAI.grows s s :=
  ⟨subset_rfl, subset_rfl, subset_rfl, le_rfl, fun _ h => h⟩

theorem MinesweeperAI.grows_trans {s t u : MinesweeperAI}
    (h1 : MinesweeperAI.grows s t) (h2 : MinesweeperAI.grows t u) :
    MinesweeperAI.grows s u :=
  ⟨h1.1.trans h2.1, h1.2.1.trans h2.2.1, h1.2.2.1.trans h2.2.2.1,
    h1.2.2.2.1.trans h2.2.2.2.1, fun m hm => h2.2.2.2.2 m (h1.2.2.2.2 m hm)⟩

theorem MinesweeperAI.mark_mine_grows (s : MinesweeperAI) (c : Cell) :
    MinesweeperAI.grows s (s.mark_mine c) := by
  refine ⟨subset_rfl, Finset.subset_insert _ _, subset_rfl, by simp [MinesweeperAI.mark_mine], ?_⟩
  intro m hm
  exact List.mem_map.2 ⟨⟨∅, m⟩, hm, by simp [Sentence.mark_mine]⟩

theorem MinesweeperAI.mark_safe_grows (s : MinesweeperAI) (c : Cell) :
    MinesweeperAI.grows s (s.mark_safe c) := by
  refine ⟨subset_rfl, subset_rfl, Finset.subset_insert _ _, by simp [MinesweeperAI.mark_safe], ?_⟩
  intro m hm
  exact List.mem_map.2 ⟨⟨∅, m⟩, hm, by simp [Sentence.mark_safe]⟩

theorem MinesweeperAI.foldr_mark_mine_grows (M : Multiset Cell) :
    ∀ s : MinesweeperAI,
      MinesweeperAI.grows s (Multiset.foldr MinesweeperAI.mark_mine s M) := by
  induction M using Multiset.induction_on with
  | empty => exact fun s => MinesweeperAI.grows_refl s
  | cons a M ih =>
      intro s
      rw [Multiset.foldr_cons]
      exact MinesweeperAI.grows_trans (ih s) (MinesweeperAI.mark_mine_grows _ a)

theorem MinesweeperAI.foldr_mark_safe_grows (M : Multiset Cell) :
    ∀ s : MinesweeperAI,
      MinesweeperAI.grows s (Multiset.foldr MinesweeperAI.mark_safe s M) := by
  induction M using Multiset.induction_on with
  | empty => exact fun s => MinesweeperAI.grows_refl s
  | cons a M ih =>
      intro s
      rw [Multiset.foldr_cons]
      exact MinesweeperAI.grows_trans (ih s) (MinesweeperAI.mark_safe_grows _ a)

theorem MinesweeperAI.resolve_cell_grows (cell : Cell) (t : Sentence) (n : Cell)
    (st : MinesweeperAI) : MinesweeperAI.grows st (MinesweeperAI.resolve_cell cell t n st) := by
  unfold MinesweeperAI.resolve_cell
  split_ifs
  · exact MinesweeperAI.mark_safe_grows st n
  · exact MinesweeperAI.mark_mine_grows st n
  · exact MinesweeperAI.grows_refl st
  · exact MinesweeperAI.grows_refl st

theorem MinesweeperAI.foldr_resolve_grows (cell : Cell) (t : Sentence)
    (M : Multiset Cell) :
    ∀ st : MinesweeperAI,
      MinesweeperAI.grows st (Multiset.foldr (MinesweeperAI.resolve_cell cell t) st M) := by
  induction M using Multiset.induction_on with
  | empty => exact fun st => MinesweeperAI.grows_refl st
  | cons a M ih =>
      intro st
      rw [Multiset.foldr_cons]
      exact MinesweeperAI.grows_trans (ih st)
        (MinesweeperAI.resolve_cell_grows cell t a _)

theorem MinesweeperAI.foldl_grows {α : Type} (f : MinesweeperAI → α → MinesweeperAI)
    (hf : ∀ s a, MinesweeperAI.grows s (f s a)) :
    ∀ (l : List α) (s : MinesweeperAI), MinesweeperAI.grows s (l.foldl f s) := by
  intro l
  induction l with
  | nil => exact fun s => MinesweeperAI.grows_refl s
  | cons a l ih =>
      intro s
      rw [List.foldl_cons]
      exact MinesweeperAI.grows_trans (hf s a) (ih (f s a))

theorem MinesweeperAI.inference_sweep_grows (s : MinesweeperAI) :
    MinesweeperAI.grows s (MinesweeperAI.inference_sweep s) := by
  unfold MinesweeperAI.inference_sweep
  refine MinesweeperAI.foldl_grows _ ?_ _ s
  intro st idx
  rcases hh : st.knowledge.get? idx with _ | t
  · simp only [hh]
    exact MinesweeperAI.grows_refl st
  · simp only [hh]
    exact MinesweeperAI.grows_trans (MinesweeperAI.foldr_mark_mine_grows _ st)
      (MinesweeperAI.foldr_mark_safe_grows _ _)

theorem MinesweeperAI.resolve_derived_grows (cell : Cell) (nk : List Sentence)
    (s : MinesweeperAI) :
    MinesweeperAI.grows s (MinesweeperAI.resolve_derived cell nk s) := by
  unfold MinesweeperAI.resolve_derived
  exact MinesweeperAI.foldl_grows _
    (fun st t => MinesweeperAI.foldr_resolve_grows cell t t.cells.val st) nk s

theorem MinesweeperAI.observe_grows (cell : Cell) (count : ℤ) (s : MinesweeperAI) :
    MinesweeperAI.grows s (MinesweeperAI.observe cell count s) := by
  have h1 : MinesweeperAI.grows s { s with moves_made := insert cell s.moves_made } :=
    ⟨Finset.subset_insert _ _, subset_rfl, subset_rfl, le_rfl, fun _ h => h⟩
  have h2 := MinesweeperAI.mark_safe_grows
    { s with moves_made := insert cell s.moves_made } cell
  have h3 : MinesweeperAI.grows
      (MinesweeperAI.mark_safe cell { s with moves_made := insert cell s.moves_made })
      (MinesweeperAI.observe cell count s) := by
    unfold MinesweeperAI.observe
    exact ⟨subset_rfl, subset_rfl, subset_rfl, by simp, fun _ h => List.mem_append_left _ h⟩
  exact MinesweeperAI.grows_trans h1 (MinesweeperAI.grows_trans h2 h3)

theorem MinesweeperAI.add_knowledge_grows (cell : Cell) (count : ℤ)
    (s : MinesweeperAI) :
    MinesweeperAI.grows s (MinesweeperAI.add_knowledge cell count s) := by
  have h1 := MinesweeperAI.observe_grows cell count s
  have h2 := MinesweeperAI.inference_sweep_grows (MinesweeperAI.observe cell count s)
  have h3 := MinesweeperAI.resolve_derived_grows cell
    (MinesweeperAI.subset_derive
      (MinesweeperAI.inference_sweep (MinesweeperAI.observe cell count s)).knowledge)
    (MinesweeperAI.inference_sweep (MinesweeperAI.observe cell count s))
  have h4 : MinesweeperAI.grows
      (MinesweeperAI.resolve_derived cell
        (MinesweeperAI.subset_derive
          (MinesweeperAI.inference_sweep (MinesweeperAI.observe cell count s)).knowledge)
        (MinesweeperAI.inference_sweep (MinesweeperAI.observe cell count s)))
      (MinesweeperAI.add_knowledge cell count s) := by
    unfold MinesweeperAI.add_knowledge
    exact ⟨subset_rfl, subset_rfl, subset_rfl, by simp, fun _ h => List.mem_append_left _ h⟩
  exact MinesweeperAI.grows_trans h1
    (MinesweeperAI.grows_trans h2 (MinesweeperAI.grows_trans h3 h4))

/-! ## Knowledge-length lemmas -/

theorem MinesweeperAI.mark_mine_knowledge_length (c : Cell) (s : MinesweeperAI) :
    (s.mark_mine c).knowledge.length = s.knowledge.length := by
  simp [MinesweeperAI.mark_mine]

theorem MinesweeperAI.mark_safe_knowledge_length (c : Cell) (s : MinesweeperAI) :
    (s.mark_safe c).knowledge.length = s.knowledge.length := by
  simp [MinesweeperAI.mark_safe]

theorem MinesweeperAI.foldr_mark_mine_length (M : Multiset Cell) :
    ∀ s : MinesweeperAI,
      (Multiset.foldr MinesweeperAI.mark_mine s M).knowledge.length =
        s.knowledge.length := by
  induction M using Multiset.induction_on with
  | empty => exact fun s => rfl
  | cons a M ih =>
      intro s
      rw [Multiset.foldr_cons, MinesweeperAI.mark_mine_knowledge_length, ih s]

theorem MinesweeperAI.foldr_mark_safe_length (M : Multiset Cell) :
    ∀ s : MinesweeperAI,
      (Multiset.foldr MinesweeperAI.mark_safe s M).knowledge.length =
        s.knowledge.length := by
  induction M using Multiset.induction_on with
  | empty => exact fun s => rfl
  | cons a M ih =>
      intro s
      rw [Multiset.foldr_cons, MinesweeperAI.mark_safe_knowledge_length, ih s]

theorem MinesweeperAI.resolve_cell_length (cell : Cell) (t : Sentence) (n : Cell)
    (st : MinesweeperAI) :
    (MinesweeperAI.resolve_cell cell t n st).knowledge.length =
      st.knowledge.length := by
  unfold MinesweeperAI.resolve_cell
  split_ifs
  · exact MinesweeperAI.mark_safe_knowledge_length n st
  · exact MinesweeperAI.mark_mine_knowledge_length n st
  · rfl
  · rfl

theorem MinesweeperAI.foldr_resolve_length (cell : Cell) (t : Sentence)
    (M : Multiset Cell) :
    ∀ st : MinesweeperAI,
      (Multiset.foldr (MinesweeperAI.resolve_cell cell t) st M).knowledge.length =
        st.knowledge.length := by
  induction M using Multiset.induction_on with
  | empty => exact fun st => rfl
  | cons a M ih =>
      intro st
      rw [Multiset.foldr_cons, MinesweeperAI.resolve_cell_length, ih st]

theorem MinesweeperAI.foldl_knowledge_length {α : Type}
    (f : MinesweeperAI → α → MinesweeperAI)
    (hf : ∀ s a, (f s a).knowledge.length = s.knowledge.length) :
    ∀ (l : List α) (s : MinesweeperAI),
      (l.foldl f s).knowledge.length = s.knowledge.length := by
  intro l
  induction l with
  | nil => exact fun s => rfl
  | cons a l ih =>
      intro s
      rw [List.foldl_cons, ih (f s a), hf s a]

theorem MinesweeperAI.inference_sweep_length (s : MinesweeperAI) :
    (MinesweeperAI.inference_sweep s).knowledge.length = s.knowledge.length := by
  unfold MinesweeperAI.inference_sweep
  refine MinesweeperAI.foldl_knowledge_length _ ?_ _ s
  intro st idx
  rcases hh : st.knowledge.get? idx with _ | t
  · simp only [hh]
  · simp only [hh]
    rw [MinesweeperAI.mark_safe_all, MinesweeperAI.mark_mine_all,
      MinesweeperAI.foldr_mark_safe_length, MinesweeperAI.foldr_mark_mine_length]

theorem MinesweeperAI.resolve_derived_length (cell : Cell) (nk : List Sentence)
    (s : MinesweeperAI) :
    (MinesweeperAI.resolve_derived cell nk s).knowledge.length =
      s.knowledge.length := by
  unfold MinesweeperAI.resolve_derived
  exact MinesweeperAI.foldl_knowledge_length _
    (fun st t => MinesweeperAI.foldr_resolve_length cell t t.cells.val st) nk s

theorem MinesweeperAI.observe_length (cell : Cell) (count : ℤ) (s : MinesweeperAI) :
    (MinesweeperAI.observe cell count s).knowledge.length =
      s.knowledge.length + 1 := by
  simp [MinesweeperAI.observe, MinesweeperAI.mark_safe]

/-! ## C8: monotonicity of the three cell sets -/

/-- C8.  None of the mutating operations `mark_mine`, `mark_safe` and
`add_knowledge` removes an element from `moves_made`, `mines` or `safes`.
The two move queries `make_safe_move` and `make_random_move` are modelled
as pure functions `MinesweeperAI → Option Cell` (their Python bodies only
read state), so they cannot change any set. -/
theorem MinesweeperAI.state_sets_monotone (s : MinesweeperAI) (c : Cell) (n : ℤ) :
    (s.moves_made ⊆ (s.mark_mine c).moves_made ∧ s.mines ⊆ (s.mark_mine c).mines ∧
      s.safes ⊆ (s.mark_mine c).safes) ∧
    (s.moves_made ⊆ (s.mark_safe c).moves_made ∧ s.mines ⊆ (s.mark_safe c).mines ∧
      s.safes ⊆ (s.mark_safe c).safes) ∧
    (s.moves_made ⊆ (MinesweeperAI.add_knowledge c n s).moves_made ∧
      s.mines ⊆ (MinesweeperAI.add_knowledge c n s).mines ∧
      s.safes ⊆ (MinesweeperAI.add_knowledge c n s).safes) := by
  have h1 := MinesweeperAI.mark_mine_grows s c
  have h2 := MinesweeperAI.mark_safe_grows s c
  have h3 := MinesweeperAI.add_knowledge_grows c n s
  exact ⟨⟨h1.1, h1.2.1, h1.2.2.1⟩, ⟨h2.1, h2.2.1, h2.2.2.1⟩,
    ⟨h3.1, h3.2.1, h3.2.2.1⟩⟩

/-! ## C10: the knowledge list never loses entries -/

/-- C10.  `mark_mine` and `mark_safe` keep the length of `knowledge`
unchanged (they rewrite sentences in place); `add_knowledge` always grows
it by at least one entry — the observation sentence is appended even when
its neighbor set is empty — and a vacuous sentence `∅ = m`, once present,
is still present after any of the three mutating operations. -/
theorem MinesweeperAI.knowledge_retention (s : MinesweeperAI) (c : Cell)
    (n m : ℤ) :
    (s.mark_mine c).knowledge.length = s.knowledge.length ∧
    (s.mark_safe c).knowledge.length = s.knowledge.length ∧
    s.knowledge.length + 1 ≤ (MinesweeperAI.add_knowledge c n s).knowledge.length ∧
    ((⟨∅, m⟩ : Sentence) ∈ s.knowledge →
      (⟨∅, m⟩ : Sentence) ∈ (s.mark_mine c).knowledge) ∧
    ((⟨∅, m⟩ : Sentence) ∈ s.knowledge →
      (⟨∅, m⟩ : Sentence) ∈ (s.mark_safe c).knowledge) ∧
    ((⟨∅, m⟩ : Sentence) ∈ s.knowledge →
      (⟨∅, m⟩ : Sentence) ∈ (MinesweeperAI.add_knowledge c n s).knowledge) := by
  refine ⟨MinesweeperAI.mark_mine_knowledge_length c s,
    MinesweeperAI.mark_safe_knowledge_length c s, ?_,
    fun h => (MinesweeperAI.mark_mine_grows s c).2.2.2.2 m h,
    fun h => (MinesweeperAI.mark_safe_grows s c).2.2.2.2 m h,
    fun h => (MinesweeperAI.add_knowledge_grows c n s).2.2.2.2 m h⟩
  have hfin : (MinesweeperAI.add_knowledge c n s).knowledge.length =
      (MinesweeperAI.resolve_derived c
          (MinesweeperAI.subset_derive
            (MinesweeperAI.inference_sweep (MinesweeperAI.observe c n s)).knowledge)
          (MinesweeperAI.inference_sweep (MinesweeperAI.observe c n s))).knowledge.length +
        (MinesweeperAI.subset_derive
          (MinesweeperAI.inference_sweep (MinesweeperAI.observe c n s)).knowledge).length := by
    simp [MinesweeperAI.add_knowledge]
  rw [hfin, MinesweeperAI.resolve_derived_length, MinesweeperAI.inference_sweep_length,
    MinesweeperAI.observe_length]
  omega

/-- C10 witness: the retention facts applied to an engine whose knowledge
base consists of the single vacuous sentence `∅ = 0`. -/
theorem MinesweeperAI.knowledge_retention_witness :
    (⟨∅, 0⟩ : Sentence) ∈
      ((⟨1, 1, ∅, ∅, ∅, [⟨∅, 0⟩]⟩ : MinesweeperAI).mark_mine ((0:ℤ), (0:ℤ))).knowledge ∧
    (⟨∅, 0⟩ : Sentence) ∈
      ((⟨1, 1, ∅, ∅, ∅, [⟨∅, 0⟩]⟩ : MinesweeperAI).mark_safe ((0:ℤ), (0:ℤ))).knowledge ∧
    (⟨∅, 0⟩ : Sentence) ∈
      (MinesweeperAI.add_knowledge ((0:ℤ), (0:ℤ)) 0
        (⟨1, 1, ∅, ∅, ∅, [⟨∅, 0⟩]⟩ : MinesweeperAI)).knowledge :=
  ⟨(MinesweeperAI.knowledge_retention ⟨1, 1, ∅, ∅, ∅, [⟨∅, 0⟩]⟩ ((0:ℤ), (0:ℤ)) 0 0).2.2.2.1
      (by decide),
    (MinesweeperAI.knowledge_retention ⟨1, 1, ∅, ∅, ∅, [⟨∅, 0⟩]⟩ ((0:ℤ), (0:ℤ)) 0 0).2.2.2.2.1
      (by decide),
    (MinesweeperAI.knowledge_retention ⟨1, 1, ∅, ∅, ∅, [⟨∅, 0⟩]⟩ ((0:ℤ), (0:ℤ)) 0 0).2.2.2.2.2
      (by decide)⟩

/-! ## C4: the shape of the new observation sentence -/

/-- C4.  Steps 1–3 of every `add_knowledge(cell, count)` call (the
`observe` stage) append to `knowledge` exactly one new sentence: its
count is the given `count` and its cells are precisely the board cells
within Chebyshev distance 1 of `cell` that lie inside the
`height × width` bounds, are different from `cell`, and are not already
in `safes` at that point. -/
theorem MinesweeperAI.observe_new_sentence_spec (cell : Cell) (count : ℤ)
    (s : MinesweeperAI) :
    ∃ t : Sentence,
      (MinesweeperAI.observe cell count s).knowledge =
        s.knowledge.map (Sentence.mark_safe cell) ++ [t] ∧
      t.count = count ∧
      ∀ n : Cell, n ∈ t.cells ↔
        (max |n.1 - cell.1| |n.2 - cell.2| ≤ 1 ∧
          0 ≤ n.1 ∧ n.1 < s.height ∧ 0 ≤ n.2 ∧ n.2 < s.width ∧
          n ≠ cell ∧ n ∉ s.safes) := by
  refine ⟨⟨MinesweeperAI.neighbors_of
      (MinesweeperAI.mark_safe cell { s with moves_made := insert cell s.moves_made })
      cell, count⟩, rfl, rfl, ?_⟩
  intro n
  have hsafes : (MinesweeperAI.mark_safe cell
      { s with moves_made := insert cell s.moves_made }).safes =
      insert cell s.safes := rfl
  have hh : (MinesweeperAI.mark_safe cell
      { s with moves_made := insert cell s.moves_made }).height = s.height := rfl
  have hw : (MinesweeperAI.mark_safe cell
      { s with moves_made := insert cell s.moves_made }).width = s.width := rfl
  simp only [MinesweeperAI.neighbors_of, Finset.mem_filter, Finset.mem_product,
    Finset.mem_Ico, hsafes, hh, hw, Finset.mem_insert, max_le_iff, lt_min_iff,
    abs_le]
  constructor
  · rintro ⟨⟨hx, hy⟩, hne, hns⟩
    refine ⟨by omega, by omega, by omega, by omega, by omega, hne, ?_⟩
    exact fun hm => hns (Or.inr hm)
  · rintro ⟨habs, h1, h2, h3, h4, hne, hns⟩
    exact ⟨⟨by omega, by omega⟩, hne, fun hor => hor.elim hne hns⟩

/-! ## C6: the safe-move query -/

theorem List.find_first_split {α : Type} (p : α → Bool) :
    ∀ (l : List α) (a : α), l.find? p = some a →
      ∃ l1 l2, l = l1 ++ a :: l2 ∧ ∀ b ∈ l1, p b = false := by
  intro l
  induction l with
  | nil => intro a h; cases h
  | cons x l ih =>
      intro a h
      by_cases hx : p x
      · rw [List.find?_cons_of_pos _ hx] at h
        injection h with h2
        subst h2
        exact ⟨[], l, rfl, by intro b hb; cases hb⟩
      · rw [List.find?_cons_of_neg _ hx] at h
        obtain ⟨l1, l2, heq, hl1⟩ := ih a h
        refine ⟨x :: l1, l2, by simp [heq], ?_⟩
        intro b hb
        rcases List.mem_cons.1 hb with hbx | hb2
        · rw [hbx]
          revert hx; cases p x <;> simp
        · exact hl1 b hb2

/-- C6.  `make_safe_move` scans the board cells in row-major order
(`board_cells`) and returns the first cell that is in `safes` and not in
`moves_made`; it returns `none` exactly when no board cell qualifies.
It is a pure function of the state (typed `MinesweeperAI → Option Cell`),
so `mines`, `safes` and `moves_made` cannot change.  On an 8×8 engine
with `safes = {(1,1)}` and `moves_made = {(1,1)}` it returns `none`. -/
theorem MinesweeperAI.make_safe_move_spec (s : MinesweeperAI) (c : Cell) :
    (MinesweeperAI.make_safe_move s = some c →
      c ∈ s.safes ∧ c ∉ s.moves_made ∧
      ∃ l1 l2 : List Cell, MinesweeperAI.board_cells s = l1 ++ c :: l2 ∧
        ∀ b ∈ l1, b ∈ s.moves_made ∨ b ∉ s.safes) ∧
    (MinesweeperAI.make_safe_move s = none ↔
      ∀ b ∈ MinesweeperAI.board_cells s, b ∈ s.moves_made ∨ b ∉ s.safes) ∧
    MinesweeperAI.make_safe_move
      ⟨8, 8, {((1:ℤ), (1:ℤ))}, ∅, {((1:ℤ), (1:ℤ))}, []⟩ = none := by
  refine ⟨?_, ?_, by decide⟩
  · intro h
    have hp := List.find?_some h
    simp only [decide_eq_true_eq] at hp
    obtain ⟨l1, l2, heq, hl1⟩ := List.find_first_split _ _ _ h
    refine ⟨hp.2, hp.1, l1, l2, heq, ?_⟩
    intro b hb
    have hb2 := hl1 b hb
    simp only [decide_eq_false_iff_not] at hb2
    tauto
  · rw [MinesweeperAI.make_safe_move, List.find?_eq_none]
    constructor
    · intro h b hb
      have hb2 := h b hb
      simp only [decide_eq_true_eq] at hb2
      tauto
    · intro h b hb
      have hb2 := h b hb
      simp only [decide_eq_true_eq]
      tauto

/-- C6 witness: on a 2×2 engine knowing only that `(0,1)` is safe, the
specification applies with `make_safe_move` returning `some (0,1)`. -/
theorem MinesweeperAI.make_safe_move_spec_witness :
    ((0:ℤ), (1:ℤ)) ∈ (⟨2, 2, ∅, ∅, {((0:ℤ), (1:ℤ))}, []⟩ : MinesweeperAI).safes ∧
    ((0:ℤ), (1:ℤ)) ∉ (⟨2, 2, ∅, ∅, {((0:ℤ), (1:ℤ))}, []⟩ : MinesweeperAI).moves_made ∧
    ∃ l1 l2 : List Cell,
      MinesweeperAI.board_cells (⟨2, 2, ∅, ∅, {((0:ℤ), (1:ℤ))}, []⟩ : MinesweeperAI) =
        l1 ++ ((0:ℤ), (1:ℤ)) :: l2 ∧
      ∀ b ∈ l1,
        b ∈ (⟨2, 2, ∅, ∅, {((0:ℤ), (1:ℤ))}, []⟩ : MinesweeperAI).moves_made ∨
        b ∉ (⟨2, 2, ∅, ∅, {((0:ℤ), (1:ℤ))}, []⟩ : MinesweeperAI).safes :=
  (MinesweeperAI.make_safe_move_spec ⟨2, 2, ∅, ∅, {((0:ℤ), (1:ℤ))}, []⟩
    ((0:ℤ), (1:ℤ))).1 (by decide)

/-! ## C7: the random-move query -/

/-- C7.  `make_random_move` returns `none` exactly when every board cell
is in `moves_made` or in `mines` (a normal `Option` outcome, not an
error), and otherwise — for every possible draw `k` — returns some board
cell that is in neither set. -/
theorem MinesweeperAI.make_random_move_spec (s : MinesweeperAI) (k : ℕ) (c : Cell) :
    (MinesweeperAI.make_random_move s k = none ↔
      ∀ b ∈ MinesweeperAI.board_cells s, b ∈ s.moves_made ∨ b ∈ s.mines) ∧
    (MinesweeperAI.make_random_move s k = some c →
      c ∈ MinesweeperAI.board_cells s ∧ c ∉ s.moves_made ∧ c ∉ s.mines) := by
  constructor
  · constructor
    · intro h
      by_cases hl : (MinesweeperAI.possible_moves s).length = 0
      · have hnil : MinesweeperAI.possible_moves s = [] := List.length_eq_zero.1 hl
        intro b hb
        by_contra hcon
        push_neg at hcon
        have hbm : b ∈ MinesweeperAI.possible_moves s :=
          List.mem_filter.2 ⟨hb, by simp [hcon.1, hcon.2]⟩
        rw [hnil] at hbm
        cases hbm
      · exfalso
        simp [MinesweeperAI.make_random_move, hl] at h
    · intro hall
      have hnil : MinesweeperAI.possible_moves s = [] := by
        by_contra hne
        obtain ⟨b, hb⟩ := List.exists_mem_of_ne_nil _ hne
        have hb2 := List.mem_filter.1 hb
        have hb3 := hb2.2
        simp only [decide_eq_true_eq] at hb3
        have := hall b hb2.1
        tauto
      simp [MinesweeperAI.make_random_move, hnil]
  · intro h
    by_cases hl : (MinesweeperAI.possible_moves s).length = 0
    · simp [MinesweeperAI.make_random_move, hl] at h
    · have hmem : c ∈ MinesweeperAI.possible_moves s := by
        simp only [MinesweeperAI.make_random_move, dif_neg hl] at h
        injection h with h2
        rw [← h2]
        exact List.get_mem _ _ _
      have hc := List.mem_filter.1 hmem
      have hc2 := hc.2
      simp only [decide_eq_true_eq] at hc2
      exact ⟨hc.1, hc2.1, hc2.2⟩

/-- C7 witness: on a fresh 1×1 engine the only board cell `(0,0)` is
playable, and the specification applies with draw index 0. -/
theorem MinesweeperAI.make_random_move_spec_witness :
    ((0:ℤ), (0:ℤ)) ∈ MinesweeperAI.board_cells (MinesweeperAI.init 1 1) ∧
    ((0:ℤ), (0:ℤ)) ∉ (MinesweeperAI.init 1 1).moves_made ∧
    ((0:ℤ), (0:ℤ)) ∉ (MinesweeperAI.init 1 1).mines :=
  (MinesweeperAI.make_random_move_spec (MinesweeperAI.init 1 1) 0
    ((0:ℤ), (0:ℤ))).2 (by decide)

/-! ## C1: completeness of the subset-resolution pass -/

theorem MinesweeperAI.derive_step_sub (k : List Sentence) (s1 : Sentence)
    (acc : List Sentence) (s2 : Sentence) :
    acc ⊆ MinesweeperAI.derive_step k s1 acc s2 := by
  unfold MinesweeperAI.derive_step
  split_ifs
  · exact List.subset_append_left _ _
  · exact List.Subset.refl _
  · exact List.Subset.refl _

theorem MinesweeperAI.foldl_derive_step_sub (k : List Sentence) (s1 : Sentence) :
    ∀ (l acc : List Sentence),
      acc ⊆ l.foldl (MinesweeperAI.derive_step k s1) acc := by
  intro l
  induction l with
  | nil => exact fun acc => List.Subset.refl acc
  | cons a l ih =>
      intro acc
      rw [List.foldl_cons]
      exact (MinesweeperAI.derive_step_sub k s1 acc a).trans (ih _)

theorem MinesweeperAI.foldl_outer_sub (k : List Sentence) :
    ∀ (kl acc : List Sentence),
      acc ⊆ kl.foldl
        (fun acc2 s1 => k.foldl (MinesweeperAI.derive_step k s1) acc2) acc := by
  intro kl
  induction kl with
  | nil => exact fun acc => List.Subset.refl acc
  | cons a kl ih =>
      intro acc
      rw [List.foldl_cons]
      exact (MinesweeperAI.foldl_derive_step_sub k a k acc).trans (ih _)

theorem MinesweeperAI.infer_mem_inner (k : List Sentence) (s1 s2 : Sentence)
    (hne : s1 ≠ s2) (hsub : s1.cells ⊆ s2.cells) :
    ∀ (l acc : List Sentence), s2 ∈ l →
      Sentence.infer s1 s2 ∈ k ∨
        Sentence.infer s1 s2 ∈ l.foldl (MinesweeperAI.derive_step k s1) acc := by
  intro l
  induction l with
  | nil => intro acc h; cases h
  | cons a l ih =>
      intro acc h
      rw [List.foldl_cons]
      rcases List.mem_cons.1 h with hax | h2
      · by_cases hk : Sentence.infer s1 s2 ∈ k
        · exact Or.inl hk
        · refine Or.inr (MinesweeperAI.foldl_derive_step_sub k s1 l _ ?_)
          rw [← hax]
          unfold MinesweeperAI.derive_step
          rw [if_pos ⟨hne, hsub⟩]
          by_cases hacc : Sentence.infer s1 s2 ∈ acc
          · rw [if_neg (fun hh => hh.2 hacc)]
            exact hacc
          · rw [if_pos ⟨hk, hacc⟩]
            exact List.mem_append_right _ (by simp)
      · exact ih _ h2

theorem MinesweeperAI.infer_mem_subset_derive (k : List Sentence) (s1 s2 : Sentence)
    (h1 : s1 ∈ k) (h2 : s2 ∈ k) (hne : s1 ≠ s2) (hsub : s1.cells ⊆ s2.cells) :
    Sentence.infer s1 s2 ∈ k ∨
      Sentence.infer s1 s2 ∈ MinesweeperAI.subset_derive k := by
  unfold MinesweeperAI.subset_derive
  suffices H : ∀ (kl acc : List Sentence), s1 ∈ kl →
      Sentence.infer s1 s2 ∈ k ∨
        Sentence.infer s1 s2 ∈
          kl.foldl (fun acc2 t => k.foldl (MinesweeperAI.derive_step k t) acc2) acc by
    exact H k [] h1
  intro kl
  induction kl with
  | nil => intro acc h; cases h
  | cons a kl ih =>
      intro acc h
      rw [List.foldl_cons]
      rcases List.mem_cons.1 h with hax | h2
      · rw [← hax]
        rcases MinesweeperAI.infer_mem_inner k s1 s2 hne hsub k acc h2 with hk | hmem
        · exact Or.inl hk
        · exact Or.inr (MinesweeperAI.foldl_outer_sub k kl _ hmem)
      · exact ih _ h2

/-- C1.  For every ordered pair of structurally distinct sentences
`(s1, s2)` in the knowledge list with `s1.cells ⊆ s2.cells`, the subset
resolution pass yields `Sentence(s2.cells - s1.cells, s2.count - s1.count)`
— it is either already present in the knowledge list (deduplication) or a
member of the derived batch `subset_derive`; inside `add_knowledge` the
whole batch is appended to the final knowledge list.  In particular,
starting from knowledge containing `{A,B} = 1` and `{A,B,C} = 2`
(`subset_demo`), a single `add_knowledge` call derives `{C} = 1` and marks
`C = (0,2)` as a mine. -/
theorem MinesweeperAI.subset_resolution_spec :
    (∀ (k : List Sentence) (s1 s2 : Sentence), s1 ∈ k → s2 ∈ k → s1 ≠ s2 →
      s1.cells ⊆ s2.cells →
      Sentence.infer s1 s2 ∈ k ∨
        Sentence.infer s1 s2 ∈ MinesweeperAI.subset_derive k) ∧
    (∀ (c : Cell) (n : ℤ) (s : MinesweeperAI) (t : Sentence),
      t ∈ MinesweeperAI.subset_derive
          (MinesweeperAI.inference_sweep (MinesweeperAI.observe c n s)).knowledge →
      t ∈ (MinesweeperAI.add_knowledge c n s).knowledge) ∧
    (⟨{((0:ℤ), (2:ℤ))}, 1⟩ : Sentence) ∈
      (MinesweeperAI.add_knowledge ((0:ℤ), (4:ℤ)) 0 subset_demo).knowledge ∧
    ((0:ℤ), (2:ℤ)) ∈ (MinesweeperAI.add_knowledge ((0:ℤ), (4:ℤ)) 0 subset_demo).mines := by
  refine ⟨?_, ?_, by decide, by decide⟩
  · intro k s1 s2 h1 h2 hne hsub
    exact MinesweeperAI.infer_mem_subset_derive k s1 s2 h1 h2 hne hsub
  · intro c n s t h
    show t ∈
      (MinesweeperAI.resolve_derived c
          (MinesweeperAI.subset_derive
            (MinesweeperAI.inference_sweep (MinesweeperAI.observe c n s)).knowledge)
          (MinesweeperAI.inference_sweep (MinesweeperAI.observe c n s))).knowledge ++
        MinesweeperAI.subset_derive
          (MinesweeperAI.inference_sweep (MinesweeperAI.observe c n s)).knowledge
    exact List.mem_append_right _ h

/-- C1 witness: the pair `({A,B} = 1, {A,B,C} = 2)` inside `subset_demo`,
whose subset-resolution derivative is `{C} = 1`. -/
theorem MinesweeperAI.subset_resolution_spec_witness :
    Sentence.infer ⟨{((0:ℤ), (0:ℤ)), ((0:ℤ), (1:ℤ))}, 1⟩
        ⟨{((0:ℤ), (0:ℤ)), ((0:ℤ), (1:ℤ)), ((0:ℤ), (2:ℤ))}, 2⟩ ∈
      subset_demo.knowledge ∨
    Sentence.infer ⟨{((0:ℤ), (0:ℤ)), ((0:ℤ), (1:ℤ))}, 1⟩
        ⟨{((0:ℤ), (0:ℤ)), ((0:ℤ), (1:ℤ)), ((0:ℤ), (2:ℤ))}, 2⟩ ∈
      MinesweeperAI.subset_derive subset_demo.knowledge :=
  MinesweeperAI.subset_resolution_spec.1 subset_demo.knowledge
    ⟨{((0:ℤ), (0:ℤ)), ((0:ℤ), (1:ℤ))}, 1⟩
    ⟨{((0:ℤ), (0:ℤ)), ((0:ℤ), (1:ℤ)), ((0:ℤ), (2:ℤ))}, 2⟩
    (by decide) (by decide) (by decide) (by decide)
